import Mathlib

/-!
Verification of the vector transfer full/partial split rewrite
(`VectorTransferSplitRewritePatterns.cpp`).

The development shallowly embeds the transform: memref descriptor types,
the bounds-condition builder, the compatible-type unifier, the
subview-intersection builder, the allocation-scope walk, and the split
orchestrator (modelled as a pure function that also returns the list of
operations it created, the final state of the rewritten operation, and the
value of the optional `ifOp` out-parameter).  A second family of
definitions gives an executable semantics to the emitted IR (masked
transfer reads/writes, the scratch buffer, and the two slow-path
strategies) in order to settle the semantic-equivalence claims.
-/

namespace VectorTransferSplit

/-! ## Memref descriptor types

`MemRefType` fields that can be dynamic (`ShapedType::kDynamic`) are
modelled as `Option Int`, with `none` standing for the dynamic marker. -/

/-- A memref layout: either an explicit strided form (per-dimension strides
plus a scalar offset, any of which may be dynamic), or some other layout
(identified by an opaque code) from which `getStridesAndOffset` cannot
extract strides. -/
inductive Layout where
  | strided (strides : List (Option Int)) (offset : Option Int)
  | other (id : Nat)
deriving DecidableEq

/-- A ranked memref descriptor type: shape (dynamic entries are `none`),
element type (opaque code), and layout. -/
structure MemRefTy where
  shape : List (Option Int)
  elem : Nat
  layout : Layout
deriving DecidableEq

/-- Rank of a memref descriptor. -/
def MemRefTy.rank (t : MemRefTy) : Nat := t.shape.length

/-- Embedding of `mlir::getStridesAndOffset`: succeeds exactly on strided
layouts, returning the stride list and the offset. -/
def getStridesAndOffset (t : MemRefTy) : Option (List (Option Int) × Option Int) :=
  match t.layout with
  | .strided s o => some (s, o)
  | .other _ => none

/-- Two static-or-dynamic fields are compatible when either is dynamic or
both are the same static value. -/
def fieldCompatible (a b : Option Int) : Bool :=
  match a, b with
  | some x, some y => decide (x = y)
  | _, _ => true

/-- Layout compatibility for casting: equal layouts are compatible, and two
strided layouts are compatible when strides and offset are pairwise
compatible fields. -/
def layoutCompatible : Layout → Layout → Bool
  | .strided sa oa, .strided sb ob =>
      decide (sa.length = sb.length)
        && (List.zipWith fieldCompatible sa sb).all (fun x => x)
        && fieldCompatible oa ob
  | la, lb => decide (la = lb)

/-- Modelled from the spec: `memref::CastOp::areCastCompatible` is code of
this repository that is not under `src/`.  The spec's data model states
that two descriptors are cast-compatible iff they agree on rank and every
statically-known field (per-dimension extent, per-dimension stride, scalar
offset, element type) matches or one side is dynamic. -/
def areCastCompatible (aT bT : MemRefTy) : Bool :=
  decide (aT.rank = bT.rank) && decide (aT.elem = bT.elem)
    && (List.zipWith fieldCompatible aT.shape bT.shape).all (fun x => x)
    && layoutCompatible aT.layout bT.layout

/-- Merge one static-or-dynamic field of two descriptors: keep the value
when both sides agree, otherwise fall back to dynamic. -/
def mergeField (a b : Option Int) : Option Int := if a = b then a else none

/-- Embedding of `getCastCompatibleMemRefType`: return `aT` if the two
types are directly cast-compatible; return `none` (null type) on rank
mismatch or when either side has no strided representation; otherwise
build the merged strided descriptor (shared static values kept, dynamic
where the sides disagree), with `aT`'s element type. -/
def getCastCompatibleMemRefType (aT bT : MemRefTy) : Option MemRefTy :=
  if areCastCompatible aT bT then some aT
  else if aT.rank ≠ bT.rank then none
  else
    match getStridesAndOffset aT, getStridesAndOffset bT with
    | some (aStrides, aOffset), some (bStrides, bOffset) =>
        if aStrides.length ≠ bStrides.length then none
        else
          some { shape := List.zipWith mergeField aT.shape bT.shape
               , elem := aT.elem
               , layout := .strided (List.zipWith mergeField aStrides bStrides)
                                    (mergeField aOffset bOffset) }
    | _, _ => none

/-! ## Transfer dimensions and the bounds-condition builder

`createInBoundsCond` zips over the (result dimension, memref dimension)
pairs of a minor-identity transfer.  Each dimension is modelled by its
in-bounds flag, the runtime value of its index operand together with
whether that operand folds to a compile-time constant, the static vector
extent, and the runtime memref extent together with whether it is static.
When a field is static, the compile-time constant coincides with the
runtime value. -/

structure Dim where
  inBounds : Bool
  idx : Int
  idxStatic : Bool
  vecSize : Int
  sz : Int
  szStatic : Bool
deriving DecidableEq

/-- The folded `index + vector_size` sum (`makeComposedFoldedAffineApply`
of `d0 + cst`): constant exactly when the index operand is constant. -/
def Dim.sumConst (d : Dim) : Option Int :=
  if d.idxStatic then some (d.idx + d.vecSize) else none

/-- The memref extent as an `OpFoldResult` (`memref::getMixedSize`):
constant exactly when the dimension is static. -/
def Dim.szConst (d : Dim) : Option Int :=
  if d.szStatic then some d.sz else none

/-- A dimension contributes no runtime check when both the folded sum and
the extent are constants with `sum ≤ extent`. -/
def Dim.foldsAway (d : Dim) : Bool :=
  match d.sumConst, d.szConst with
  | some s, some e => decide (s ≤ e)
  | _, _ => false

/-- One step of the conjunction accumulation in `createInBoundsCond`: an
in-bounds dimension does not participate; a folding dimension is skipped;
otherwise the emitted `cmpi sle` check for this dimension is conjoined
(`arith.andi`) onto the accumulated condition, or starts it. -/
def condAccum (acc : Option (List Dim)) (d : Dim) : Option (List Dim) :=
  if d.inBounds then acc
  else if d.foldsAway then acc
  else
    match acc with
    | none => some [d]
    | some cs => some (cs ++ [d])

/-- Embedding of `createInBoundsCond`: the accumulated conjunction of
emitted per-dimension checks, `none` when no check was emitted (null
`Value`). -/
def createInBoundsCond (dims : List Dim) : Option (List Dim) :=
  dims.foldl condAccum none

/-- The dimensions for which a runtime check is emitted. -/
def condFilter (dims : List Dim) : List Dim :=
  dims.filter fun d => !d.inBounds && !d.foldsAway

/-- Runtime value of the emitted conjunction: every emitted signed
comparison `index + vector_size ≤ extent` holds. -/
def evalCond (cs : List Dim) : Bool :=
  cs.all fun d => decide (d.idx + d.vecSize ≤ d.sz)

lemma foldl_condAccum_some (dims : List Dim) : ∀ cs : List Dim,
    List.foldl condAccum (some cs) dims = some (cs ++ condFilter dims) := by
  induction dims with
  | nil => intro cs; simp [condFilter]
  | cons d rest ih =>
      intro cs
      rw [List.foldl_cons]
      cases hb : d.inBounds
      · cases hf : d.foldsAway
        · have hstep : condAccum (some cs) d = some (cs ++ [d]) := by
            simp [condAccum, hb, hf]
          rw [hstep, ih]
          simp [condFilter, List.filter_cons, hb, hf]
        · have hstep : condAccum (some cs) d = some cs := by
            simp [condAccum, hb, hf]
          rw [hstep, ih]
          simp [condFilter, List.filter_cons, hb, hf]
      · have hstep : condAccum (some cs) d = some cs := by
          simp [condAccum, hb]
        rw [hstep, ih]
        simp [condFilter, List.filter_cons, hb]

lemma createInBoundsCond_eq (dims : List Dim) :
    createInBoundsCond dims =
      if condFilter dims = [] then none else some (condFilter dims) := by
  induction dims with
  | nil => simp [createInBoundsCond, condFilter]
  | cons d rest ih =>
      unfold createInBoundsCond at ih ⊢
      rw [List.foldl_cons]
      cases hb : d.inBounds
      · cases hf : d.foldsAway
        · have hstep : condAccum none d = some [d] := by
            simp [condAccum, hb, hf]
          rw [hstep, foldl_condAccum_some]
          simp [condFilter, List.filter_cons, hb, hf]
        · have hstep : condAccum none d = none := by
            simp [condAccum, hb, hf]
          rw [hstep, ih]
          simp [condFilter, List.filter_cons, hb, hf]
      · have hstep : condAccum none d = none := by
          simp [condAccum, hb]
        rw [hstep, ih]
        simp [condFilter, List.filter_cons, hb]

/-! ## Subview intersection (`createSubViewIntersection`)

The builder is modelled on runtime values: the indices, the memref extents
at the trailing dimensions (the `memref.dim` values), and the scratch
buffer extents.  Each trailing size is the fused
`affine_min(dimMemRef - index, dimAlloc)`, modelled by `min`. -/

/-- Which memref a subview is taken of: the original source region or the
scratch buffer. -/
inductive ViewBase where
  | source
  | alloc
deriving DecidableEq

/-- A `memref.subview` of a base at given offsets, sizes and strides. -/
structure SubViewDesc where
  base : ViewBase
  offsets : List Int
  sizes : List Int
  strides : List Int
deriving DecidableEq

/-- The fused per-dimension overlap sizes:
`affine_min(dimMemRef - index, dimAlloc)` for each trailing dimension. -/
def minOverlapSizes (memDims idxs allocDims : List Int) : List Int :=
  List.zipWith (fun di a => min (di.1 - di.2) a) (memDims.zip idxs) allocDims

/-- Embedding of `createSubViewIntersection`: sizes are the leading index
values followed by the fused overlap minima; `srcIndices` are the original
transfer indices, `destIndices` all zeros, strides all one; the first
subview (copy source) is taken of the buffer for a write and of the source
region for a read, the second (copy destination) of the other one. -/
def createSubViewIntersection (isaWrite : Bool) (leadingIndices : List Int)
    (trailingIndices : List Int) (memDims allocDims : List Int) :
    SubViewDesc × SubViewDesc :=
  let sizes := leadingIndices ++ minOverlapSizes memDims trailingIndices allocDims
  let memrefRank := leadingIndices.length + trailingIndices.length
  let srcIndices := leadingIndices ++ trailingIndices
  let destIndices := List.replicate memrefRank (0 : Int)
  let strides := List.replicate memrefRank (1 : Int)
  (⟨if isaWrite then .alloc else .source, srcIndices, sizes, strides⟩,
   ⟨if isaWrite then .source else .alloc, destIndices, sizes, strides⟩)

/-! ## Allocation-scope walk (`getAutomaticAllocationScope`) -/

/-- Kind of an ancestor operation, as tested by the walk. -/
inductive AncKind where
  | scfFor
  | affineFor
  | otherOp
deriving DecidableEq

/-- One ancestor of the transfer op: its kind, whether it carries the
`AutomaticAllocationScope` trait, and an identity. -/
structure Anc where
  kind : AncKind
  allocScope : Bool
  id : Nat
deriving DecidableEq

/-- The recognized repeating constructs: `scf.for` and `affine.for`. -/
def Anc.isLoopLike (a : Anc) : Bool :=
  decide (a.kind = .scfFor) || decide (a.kind = .affineFor)

/-- The walk of `getAutomaticAllocationScope`, accumulating the most
recently seen ancestor tagged as an automatic-allocation scope and
breaking at the first ancestor that is not a recognized loop. -/
def gaasWalk : Option Anc → List Anc → Option Anc
  | scope, [] => scope
  | scope, parent :: rest =>
      let scope2 := if parent.allocScope then some parent else scope
      if parent.isLoopLike then gaasWalk scope2 rest else scope2

/-- Embedding of `getAutomaticAllocationScope` on the ancestor chain
(nearest first).  A `none` result models tripping the
`assert(scope && ...)` contract violation. -/
def getAutomaticAllocationScope (ancestors : List Anc) : Option Anc :=
  gaasWalk none ancestors

/-- The ancestors actually examined by the walk: the longest prefix of
loop-like ancestors plus the first non-loop ancestor, if any. -/
def walkedAncestors : List Anc → List Anc
  | [] => []
  | p :: rest => if p.isLoopLike then p :: walkedAncestors rest else [p]

/-- The most recently seen allocation-scope-tagged element of a list. -/
def lastAllocScope (l : List Anc) : Option Anc :=
  l.foldl (fun acc p => if p.allocScope then some p else acc) none

lemma gaasWalk_append_acc (l : List Anc) : ∀ acc : Option Anc,
    gaasWalk acc l =
      (walkedAncestors l).foldl (fun a p => if p.allocScope then some p else a) acc := by
  induction l with
  | nil => intro acc; simp [gaasWalk, walkedAncestors]
  | cons p rest ih =>
      intro acc
      by_cases hl : p.isLoopLike = true
      · simp only [gaasWalk, walkedAncestors, hl, if_true, List.foldl_cons]
        exact ih _
      · simp only [gaasWalk, walkedAncestors, Bool.eq_false_iff.mpr hl]
        simp [List.foldl_cons]

lemma getAutomaticAllocationScope_eq (ancestors : List Anc) :
    getAutomaticAllocationScope ancestors = lastAllocScope (walkedAncestors ancestors) := by
  simpa [getAutomaticAllocationScope, lastAllocScope] using gaasWalk_append_acc ancestors none

lemma foldl_allocScope_isSome (l : List Anc) : ∀ acc : Option Anc, (∃ x, acc = some x) →
    ∃ y, l.foldl (fun a p => if p.allocScope then some p else a) acc = some y := by
  induction l with
  | nil => intro acc hacc; simpa using hacc
  | cons q rs ihq =>
      intro acc hacc
      simp only [List.foldl_cons]
      apply ihq
      by_cases hq : q.allocScope = true
      · exact ⟨q, by simp [hq]⟩
      · obtain ⟨x, hx⟩ := hacc
        exact ⟨x, by simp [Bool.eq_false_iff.mpr hq, hx]⟩

lemma lastAllocScope_eq_none_iff (l : List Anc) :
    lastAllocScope l = none ↔ ∀ a ∈ l, a.allocScope = false := by
  induction l with
  | nil => simp [lastAllocScope]
  | cons p rest ih =>
      by_cases hp : p.allocScope = true
      · constructor
        · intro h
          exfalso
          obtain ⟨x, hx⟩ := foldl_allocScope_isSome rest (some p) ⟨p, rfl⟩
          simp only [lastAllocScope, List.foldl_cons, hp, if_true] at h
          rw [h] at hx
          cases hx
        · intro h
          exact absurd (h p (by simp)) (by simp [hp])
      · have hp2 : p.allocScope = false := Bool.eq_false_iff.mpr hp
        simp only [lastAllocScope, List.foldl_cons, hp2, Bool.false_eq_true, if_false]
        constructor
        · intro h
          intro a ha
          rcases List.mem_cons.mp ha with rfl | ha2
          · exact hp2
          · exact (ih.mp h) a ha2
        · intro h
          exact ih.mpr fun a ha => h a (List.mem_cons_of_mem _ ha)

/-- On a dimension that folds away, the static proof carries over to the
runtime values. -/
lemma Dim.foldsAway_holds {d : Dim} (h : d.foldsAway = true) :
    d.idx + d.vecSize ≤ d.sz := by
  unfold Dim.foldsAway Dim.sumConst Dim.szConst at h
  by_cases hi : d.idxStatic = true
  · by_cases hs : d.szStatic = true
    · simp [hi, hs] at h
      exact h
    · simp [hi, Bool.eq_false_iff.mpr hs] at h
  · simp [Bool.eq_false_iff.mpr hi] at h

/-! ## The split orchestrator (`splitFullAndPartialTransfer`)

The orchestrator is modelled as a pure function from the transfer-op
configuration and the strategy to: the `LogicalResult`, the list of
operations it created, the final state of the rewritten operation (`none`
when it was erased), and the value held by the optional `ifOp`
out-parameter. -/

/-- The `VectorTransferSplit` strategy enum. -/
inductive Strategy where
  | none
  | forceInBounds
  | linalgCopy
  | vectorTransfer
deriving DecidableEq

/-- Kind of the candidate operation: `vector.transfer_read`,
`vector.transfer_write`, or some other implementer of the transfer-op
interface (both `dyn_cast`s fail). -/
inductive OpKind where
  | read
  | write
  | otherXfer
deriving DecidableEq

/-- A transfer operation as the transform sees it.  `dims` holds the
per-transfer-dimension data (flag, index, vector extent, memref extent);
the transfer rank is its length. -/
structure OpCfg where
  kind : OpKind
  dims : List Dim
  minorIdentity : Bool
  parentIsIf : Bool
  hasMask : Bool
  srcType : MemRefTy
  vecElem : Nat
  ancestors : List Anc
deriving DecidableEq

def OpCfg.transferRank (c : OpCfg) : Nat := c.dims.length

def OpCfg.hasOutOfBoundsDim (c : OpCfg) : Bool := c.dims.any fun d => !d.inBounds

/-- Embedding of `splitFullAndPartialTransferPrecondition`: rank positive,
minor-identity map, some out-of-bounds dimension, and not directly nested
under an `scf.if`. -/
def splitFullAndPartialTransferPrecondition (c : OpCfg) : Bool :=
  !(decide (c.transferRank = 0)) && c.minorIdentity
    && c.hasOutOfBoundsDim && !c.parentIsIf

/-- Row-major strides of an identity-layout memref of the given shape. -/
def identityStrides : List Int → List Int
  | [] => []
  | _ :: rest => rest.foldl (· * ·) 1 :: identityStrides rest

/-- The type of the scratch buffer: `MemRefType::get(vectorShape,
elementType)`, a static identity-layout memref of exactly one vector. -/
def allocMemRefType (c : OpCfg) : MemRefTy :=
  { shape := c.dims.map fun d => some d.vecSize
  , elem := c.vecElem
  , layout := .strided ((identityStrides (c.dims.map fun d => d.vecSize)).map some)
                       (some 0) }

/-- Boolean expressions over the synthesized bounds condition, used to
model conditional guards. -/
inductive BoolExpr where
  | inBoundsCondV
  | constTrue
  | xorE (a b : BoolExpr)
deriving DecidableEq

/-- Value of a guard expression given the value of the bounds condition. -/
def evalBoolExpr (c : Bool) : BoolExpr → Bool
  | .inBoundsCondV => c
  | .constTrue => true
  | .xorE a b => xor (evalBoolExpr c a) (evalBoolExpr c b)

/-- Which of the two read conditionals was built. -/
inductive ReadIfKind where
  | vectorTransferRead
  | linalgCopyRead
deriving DecidableEq

/-- A handle to a synthesized conditional, as stored into the `ifOp`
out-parameter. -/
inductive IfRef where
  | readIf (k : ReadIfKind)
deriving DecidableEq

/-- Body of the second (cleanup) conditional of the write path: either the
bulk copy between the two subviews of `createSubViewIntersection`, or a
load of the single vector out of the buffer followed by a clone of the
original write (against the given base and indices) with the loaded value
substituted for the vector operand. -/
inductive CleanupBody where
  | copyBack (src dst : SubViewDesc)
  | reissueWrite (base : ViewBase) (indices : List Int) (vecFromBuffer : Bool)
deriving DecidableEq

/-- Operations created by the transform, in creation order.  The
bounds-condition arithmetic is abstracted to one `condCheck` event per
emitted per-dimension check (each such check is the only point where the
builder materializes values). -/
inductive Event where
  | condCheck (d : Dim)
  | alloca (scope : Option Anc)
  | readIf (k : ReadIfKind)
  | locWriteIf (guard : BoolExpr)
  | cloneWrite (inBoundsAttr : List Bool)
  | negCond
  | cleanupIf (guard : BoolExpr) (body : CleanupBody)
deriving DecidableEq

/-- The operations materialized by `createInBoundsCond`: one check per
participating dimension that does not fold away. -/
def condEvents (dims : List Dim) : List Event :=
  (condFilter dims).map Event.condCheck

/-- The subview pair built by the write-path cleanup: the transfer ranks
match (asserted), so there are no leading dimensions. -/
def writeSubViews (c : OpCfg) : SubViewDesc × SubViewDesc :=
  createSubViewIntersection true []
    (c.dims.map fun d => d.idx)
    (c.dims.map fun d => d.sz)
    (c.dims.map fun d => d.vecSize)

/-- Cleanup body chosen by the strategy for the write path. -/
def writeCleanupBody (strat : Strategy) (c : OpCfg) : CleanupBody :=
  if strat = Strategy.vectorTransfer then
    CleanupBody.reissueWrite ViewBase.source (c.dims.map fun d => d.idx) true
  else
    CleanupBody.copyBack (writeSubViews c).1 (writeSubViews c).2

/-- Overwrite the in-bounds flag array to all-true
(`xferOp->setAttr(getInBoundsAttrStrName(), inBoundsAttr)`). -/
def setAllInBounds (c : OpCfg) : OpCfg :=
  { c with dims := c.dims.map fun d => { d with inBounds := true } }

/-- Outcome of one invocation of the transform. -/
structure SplitResult where
  ok : Bool
  created : List Event
  finalOp : Option OpCfg
  slot : Option IfRef
deriving DecidableEq

/-- Embedding of `splitFullAndPartialTransfer`.  `slot` is the value the
(non-null) `ifOp` out-parameter points to on entry. -/
def splitFullAndPartialTransfer (strat : Strategy) (cfg : OpCfg)
    (slot : Option IfRef) : SplitResult :=
  if strat = Strategy.none then ⟨false, [], some cfg, slot⟩
  else if strat = Strategy.forceInBounds then
    ⟨true, [], some (setAllInBounds cfg), slot⟩
  else if !(decide (cfg.kind = OpKind.read) || decide (cfg.kind = OpKind.write)) then
    ⟨false, [], some cfg, slot⟩
  else if cfg.hasMask then ⟨false, [], some cfg, slot⟩
  else
    match createInBoundsCond cfg.dims with
    | Option.none => ⟨false, condEvents cfg.dims, some cfg, slot⟩
    | some _checks =>
        let scope := getAutomaticAllocationScope cfg.ancestors
        let preTrace := condEvents cfg.dims ++ [Event.alloca scope]
        match getCastCompatibleMemRefType cfg.srcType (allocMemRefType cfg) with
        | Option.none => ⟨false, preTrace, some cfg, slot⟩
        | some compatTy =>
            if cfg.kind = OpKind.read then
              let k := if strat = Strategy.vectorTransfer then
                  ReadIfKind.vectorTransferRead else ReadIfKind.linalgCopyRead
              ⟨true, preTrace ++ [Event.readIf k],
               some { setAllInBounds cfg with srcType := compatTy },
               some (IfRef.readIf k)⟩
            else
              ⟨true, preTrace
                 ++ [Event.locWriteIf BoolExpr.inBoundsCondV,
                     Event.cloneWrite (List.replicate cfg.transferRank true),
                     Event.negCond,
                     Event.cleanupIf (BoolExpr.xorE BoolExpr.inBoundsCondV BoolExpr.constTrue)
                       (writeCleanupBody strat cfg)],
               Option.none, slot⟩

/-- Embedding of `VectorTransferFullPartialRewriter::matchAndRewrite`: the
precondition and the injectable filter are checked first; on either
failure the pattern reports failure without touching the IR. -/
def matchAndRewrite (strat : Strategy) (filterOk : Bool) (cfg : OpCfg)
    (slot : Option IfRef) : SplitResult :=
  if !(splitFullAndPartialTransferPrecondition cfg) || !filterOk then
    ⟨false, [], some cfg, slot⟩
  else splitFullAndPartialTransfer strat cfg slot

/-- Number of times the original write is cloned: the guaranteed in-bounds
clone, plus the clone inside the cleanup conditional for the reissue
strategy. -/
def cleanupClones : CleanupBody → Nat
  | .copyBack _ _ => 0
  | .reissueWrite _ _ _ => 1

/-- Clones contributed by one created operation. -/
def eventClones : Event → Nat
  | .cloneWrite _ => 1
  | .cleanupIf _ b => cleanupClones b
  | _ => 0

/-- Number of times the original write is cloned by the emitted IR: the
guaranteed in-bounds clone, plus the clone inside the cleanup conditional
for the reissue strategy. -/
def writeCloneCount (tr : List Event) : Nat := (tr.map eventClones).sum

/-! ## Execution semantics of the emitted IR (one-dimensional case)

Memories are total functions `Int → α`; a memref of extent `sz` is the
restriction to addresses `[0, sz)`.  The semantic claims are settled on
the 1-D instance, which already exhibits the divergence. -/

/-- Semantics of the original masked 1-D transfer write: lane `p` of the
vector lands at address `idx + p` when `0 ≤ p < shape`; lanes whose
address reaches past the extent `sz` are masked off and never stored. -/
def transferWriteMasked1 {α} (mem : Int → α) (sz idx shape : Int) (v : Int → α) :
    Int → α := fun a =>
  if idx ≤ a ∧ a < idx + shape ∧ a < sz then v (a - idx) else mem a

/-- Semantics of a full (unmasked, in-bounds) 1-D vector write of `v` at
base address `base`. -/
def fullWriteAt1 {α} (mem : Int → α) (base shape : Int) (v : Int → α) :
    Int → α := fun a =>
  if base ≤ a ∧ a < base + shape then v (a - base) else mem a

/-- Semantics of the original masked 1-D transfer read: lane `p` observes
`mem (idx + p)` when in bounds and the pad value otherwise. -/
def transferReadMasked1 {α} (mem : Int → α) (sz idx : Int) (pad : α) (p : Int) : α :=
  if idx + p < sz then mem (idx + p) else pad

/-- Reading through a 1-D subview base: the source region or the buffer. -/
def viewRead1 {α} (mem buffer : Int → α) : ViewBase → Int → α
  | .source, a => mem a
  | .alloc, a => buffer a

/-- Executing the `memref.copy` between the two 1-D subviews produced by
`createSubViewIntersection`: returns the new contents of the destination
memref (the base of the second subview).  Cell `doff + r` of the
destination receives cell `soff + r` of the source view, for
`0 ≤ r < size`. -/
def copyExec1 {α} (pair : SubViewDesc × SubViewDesc) (mem buffer : Int → α) :
    Int → α := fun a =>
  if pair.2.offsets.headD 0 ≤ a ∧ a - pair.2.offsets.headD 0 < pair.2.sizes.headD 0
  then viewRead1 mem buffer pair.1.base
        (pair.1.offsets.headD 0 + (a - pair.2.offsets.headD 0))
  else viewRead1 mem buffer pair.2.base a

/-- Runtime value of the synthesized 1-D bounds condition: dimensions
flagged in-bounds do not participate. -/
def inBoundsGuard1 (flags : Bool) (sz idx shape : Int) : Bool :=
  flags || decide (idx + shape ≤ sz)

/-- Execution of the split 1-D read under the bulk-copy strategy: on the
fast path a direct in-bounds read at the original index; on the slow path
the buffer is filled with the pad value, the overlap is copied through the
subview intersection, and the result is read out of the buffer at index
zero. -/
def splitReadLinalgCopy1 {α} (mem : Int → α) (sz idx shape : Int) (flags : Bool)
    (pad : α) (p : Int) : α :=
  if inBoundsGuard1 flags sz idx shape then mem (idx + p)
  else copyExec1 (createSubViewIntersection false [] [idx] [sz] [shape])
        mem (fun _ => pad) p

/-- Execution of the split 1-D write under the bulk-copy strategy: on the
fast path a full vector write at the original index; on the slow path the
full vector is written into the buffer at index zero and the cleanup
conditional runs the copy between the two subviews produced by
`createSubViewIntersection` (the write orientation), updating the region. -/
def splitWriteLinalgCopy1 {α} (mem binit : Int → α) (sz idx shape : Int)
    (flags : Bool) (v : Int → α) : Int → α :=
  if inBoundsGuard1 flags sz idx shape then fullWriteAt1 mem idx shape v
  else copyExec1 (createSubViewIntersection true [] [idx] [sz] [shape])
        mem (fullWriteAt1 binit 0 shape v)

/-- Execution of the split 1-D write under the reissue strategy: on the
fast path a full vector write at the original index; on the slow path the
full vector is written into the buffer at index zero, then the cleanup
conditional loads the single vector back out of the buffer and reissues
the original masked write with the loaded value. -/
def splitWriteVectorTransfer1 {α} (mem binit : Int → α) (sz idx shape : Int)
    (flags : Bool) (v : Int → α) : Int → α :=
  if inBoundsGuard1 flags sz idx shape then fullWriteAt1 mem idx shape v
  else transferWriteMasked1 mem sz idx shape (fullWriteAt1 binit 0 shape v)

/-- The subview pair built for a 1-D read: source region at the original
index and buffer at offset zero, sizes both the fused overlap minimum. -/
lemma subViews_read1 (idx sz shape : Int) :
    createSubViewIntersection false [] [idx] [sz] [shape] =
      (⟨ViewBase.source, [idx], [min (sz - idx) shape], [1]⟩,
       ⟨ViewBase.alloc, [0], [min (sz - idx) shape], [1]⟩) := rfl

/-- The subview pair built for a 1-D write: the roles are swapped, but the
offsets are not — the buffer-side view carries the original index and the
region-side view offset zero. -/
lemma subViews_write1 (idx sz shape : Int) :
    createSubViewIntersection true [] [idx] [sz] [shape] =
      (⟨ViewBase.alloc, [idx], [min (sz - idx) shape], [1]⟩,
       ⟨ViewBase.source, [0], [min (sz - idx) shape], [1]⟩) := rfl

/-- The split 1-D read (bulk-copy strategy) observes exactly the masked
read, for any lane of the vector, provided the in-bounds flag is honest. -/
lemma splitReadLinalgCopy1_correct {α} (mem : Int → α) (sz idx shape : Int)
    (flags : Bool) (pad : α) (p : Int) (hp0 : 0 ≤ p) (hps : p < shape)
    (hflag : flags = true → idx + shape ≤ sz) :
    splitReadLinalgCopy1 mem sz idx shape flags pad p =
      transferReadMasked1 mem sz idx pad p := by
  unfold splitReadLinalgCopy1 transferReadMasked1
  by_cases hin : idx + shape ≤ sz
  · have hgd : inBoundsGuard1 flags sz idx shape = true := by
      simp [inBoundsGuard1, hin]
    rw [hgd, if_pos rfl, if_pos (by omega)]
  · have hfl : flags = false := by
      cases hfe : flags
      · rfl
      · exact absurd (hflag hfe) hin
    have hgd : inBoundsGuard1 flags sz idx shape = false := by
      simp [inBoundsGuard1, hfl, hin]
    rw [hgd, if_neg (by simp), subViews_read1]
    unfold copyExec1
    simp only [List.headD_cons, sub_zero, viewRead1]
    by_cases hub : idx + p < sz
    · rw [if_pos ⟨hp0, by omega⟩, if_pos hub]
    · rw [if_neg (by omega), if_neg hub]

/-- The split 1-D write under the reissue strategy produces exactly the
masked write's final memory, provided the in-bounds flag is honest. -/
lemma splitWriteVectorTransfer1_correct {α} (mem binit : Int → α)
    (sz idx shape : Int) (flags : Bool) (v : Int → α)
    (hflag : flags = true → idx + shape ≤ sz) :
    splitWriteVectorTransfer1 mem binit sz idx shape flags v =
      transferWriteMasked1 mem sz idx shape v := by
  funext a
  unfold splitWriteVectorTransfer1 transferWriteMasked1 fullWriteAt1
  by_cases hin : idx + shape ≤ sz
  · have hgd : inBoundsGuard1 flags sz idx shape = true := by
      simp [inBoundsGuard1, hin]
    rw [hgd, if_pos rfl]
    by_cases hw : idx ≤ a ∧ a < idx + shape
    · rw [if_pos hw, if_pos (by omega)]
    · rw [if_neg hw, if_neg (by omega)]
  · have hfl : flags = false := by
      cases hfe : flags
      · rfl
      · exact absurd (hflag hfe) hin
    have hgd : inBoundsGuard1 flags sz idx shape = false := by
      simp [inBoundsGuard1, hfl, hin]
    rw [hgd, if_neg (by simp)]
    by_cases hw : idx ≤ a ∧ a < idx + shape ∧ a < sz
    · rw [if_pos hw, if_pos hw, if_pos (by omega)]
      simp only [sub_zero]
    · rw [if_neg hw, if_neg hw]

/-! ## Claim theorems -/

lemma createInBoundsCond_some_eq {dims cs : List Dim}
    (h : createInBoundsCond dims = some cs) : cs = condFilter dims := by
  rw [createInBoundsCond_eq] at h
  by_cases he : condFilter dims = []
  · simp [he] at h
  · simp only [he, if_neg, if_false] at h
    exact (Option.some_inj.mp h).symm

lemma condEvents_eq_nil_of_cond_none {dims : List Dim}
    (h : createInBoundsCond dims = none) : condEvents dims = [] := by
  rw [createInBoundsCond_eq] at h
  by_cases he : condFilter dims = []
  · simp [condEvents, he]
  · simp [he] at h

/-- Claim C1: for a minor-identity transfer, the bounds condition built by
`createInBoundsCond` is (semantically) the conjunction, over exactly the
dimensions whose in-bounds flag is false, of the signed comparison
`index + vector_extent ≤ region_extent`; a dimension whose folded sum and
region extent are both constant with `sum ≤ extent` contributes no runtime
check; and the result is absent (null) iff every participating dimension
folds away in this manner. -/
theorem createInBoundsCond_spec : ∀ dims : List Dim,
    (∀ cs, createInBoundsCond dims = some cs →
      ((evalCond cs = true) ↔ ∀ d ∈ dims, d.inBounds = false → d.idx + d.vecSize ≤ d.sz)) ∧
    (∀ cs, createInBoundsCond dims = some cs →
      ∀ d ∈ cs, d.inBounds = false ∧ d.foldsAway = false) ∧
    (createInBoundsCond dims = none ↔
      ∀ d ∈ dims, d.inBounds = false → d.foldsAway = true) ∧
    (∀ d : Dim, d.inBounds = false → d.idxStatic = true → d.szStatic = true →
      d.idx + d.vecSize ≤ d.sz →
      createInBoundsCond (dims ++ [d]) = createInBoundsCond dims) := by
  intro dims
  have hmemFilter : ∀ d : Dim, d ∈ condFilter dims ↔
      d ∈ dims ∧ d.inBounds = false ∧ d.foldsAway = false := by
    intro d
    simp only [condFilter, List.mem_filter, Bool.and_eq_true, Bool.not_eq_true']
  refine ⟨?_, ?_, ?_, ?_⟩
  · intro cs hcs
    rw [createInBoundsCond_some_eq hcs]
    unfold evalCond
    rw [List.all_eq_true]
    constructor
    · intro h d hd hflag
      by_cases hf : d.foldsAway = true
      · exact Dim.foldsAway_holds hf
      · have := h d ((hmemFilter d).mpr ⟨hd, hflag, Bool.eq_false_iff.mpr hf⟩)
        exact of_decide_eq_true this
    · intro h d hd
      obtain ⟨hdd, hflag, _⟩ := (hmemFilter d).mp hd
      exact decide_eq_true (h d hdd hflag)
  · intro cs hcs d hd
    rw [createInBoundsCond_some_eq hcs] at hd
    obtain ⟨_, h2, h3⟩ := (hmemFilter d).mp hd
    exact ⟨h2, h3⟩
  · rw [createInBoundsCond_eq]
    constructor
    · intro h d hd hflag
      by_cases he : condFilter dims = []
      · by_contra hf
        have : d ∈ condFilter dims :=
          (hmemFilter d).mpr ⟨hd, hflag, Bool.eq_false_iff.mpr hf⟩
        simp [he] at this
      · simp [he] at h
    · intro h
      have he : condFilter dims = [] := by
        by_contra hne
        obtain ⟨d, hd⟩ := List.exists_mem_of_ne_nil _ hne
        obtain ⟨hdd, hflag, hnf⟩ := (hmemFilter d).mp hd
        exact absurd (h d hdd hflag) (by simp [hnf])
      simp [he]
  · intro d hflag hidx hsz hle
    have hf : d.foldsAway = true := by
      unfold Dim.foldsAway Dim.sumConst Dim.szConst
      simp [hidx, hsz, hle]
    rw [createInBoundsCond_eq, createInBoundsCond_eq]
    have : condFilter (dims ++ [d]) = condFilter dims := by
      unfold condFilter
      rw [List.filter_append]
      simp [hf]
    rw [this]

/-- Witness for C1, on the claim's own example: region extent 8, vector
extent 4, constant index 2 — the dimension folds away and no condition at
all is produced. -/
theorem createInBoundsCond_spec_witness :
    createInBoundsCond [⟨false, 2, true, 4, 8, true⟩] = none :=
  (createInBoundsCond_spec [⟨false, 2, true, 4, 8, true⟩]).2.2.1.mpr (by decide)

/-- Claim C4: `getCastCompatibleMemRefType` returns `aT` unchanged when
the two types are directly cast-compatible; returns the null type when
(not being cast-compatible) they differ in rank or either lacks a strided
layout — and differing rank already precludes cast compatibility; and
otherwise returns a strided descriptor whose extent, stride and offset at
each position is the shared value where `aT` and `bT` agree and dynamic
otherwise. -/
theorem getCastCompatibleMemRefType_spec : ∀ aT bT : MemRefTy,
    (areCastCompatible aT bT = true → getCastCompatibleMemRefType aT bT = some aT) ∧
    (aT.rank ≠ bT.rank → areCastCompatible aT bT = false) ∧
    (areCastCompatible aT bT = false →
      (aT.rank ≠ bT.rank ∨ getStridesAndOffset aT = Option.none ∨
        getStridesAndOffset bT = Option.none) →
      getCastCompatibleMemRefType aT bT = Option.none) ∧
    (∀ aStrides aOffset bStrides bOffset,
      areCastCompatible aT bT = false → aT.rank = bT.rank →
      getStridesAndOffset aT = some (aStrides, aOffset) →
      getStridesAndOffset bT = some (bStrides, bOffset) →
      aStrides.length = bStrides.length →
      ∃ res, getCastCompatibleMemRefType aT bT = some res ∧
        res.elem = aT.elem ∧
        res.shape.length = aT.rank ∧
        (∀ i, (ha : i < aT.shape.length) → (hb : i < bT.shape.length) →
          (hr : i < res.shape.length) →
          res.shape[i] = if aT.shape[i] = bT.shape[i] then aT.shape[i] else Option.none) ∧
        ∃ resStrides resOffset, res.layout = Layout.strided resStrides resOffset ∧
          resStrides.length = aStrides.length ∧
          (∀ i, (ha : i < aStrides.length) → (hb : i < bStrides.length) →
            (hr : i < resStrides.length) →
            resStrides[i] = if aStrides[i] = bStrides[i] then aStrides[i] else Option.none) ∧
          resOffset = (if aOffset = bOffset then aOffset else Option.none)) := by
  intro aT bT
  refine ⟨?_, ?_, ?_, ?_⟩
  · intro h
    unfold getCastCompatibleMemRefType
    rw [h, if_pos rfl]
  · intro h
    unfold areCastCompatible
    simp [h]
  · intro hcc hdis
    unfold getCastCompatibleMemRefType
    rw [hcc, if_neg (by simp)]
    rcases hdis with hr | hsa | hsb
    · rw [if_pos hr]
    · rw [hsa]
      by_cases hr : aT.rank ≠ bT.rank
      · rw [if_pos hr]
      · rw [if_neg hr]
    · rw [hsb]
      by_cases hr : aT.rank ≠ bT.rank
      · rw [if_pos hr]
      · rw [if_neg hr]
        cases getStridesAndOffset aT with
        | none => rfl
        | some x => rfl
  · intro aStrides aOffset bStrides bOffset hcc hrank hsa hsb hlen
    refine ⟨{ shape := List.zipWith mergeField aT.shape bT.shape
            , elem := aT.elem
            , layout := Layout.strided (List.zipWith mergeField aStrides bStrides)
                                       (mergeField aOffset bOffset) }, ?_, rfl, ?_, ?_, ?_⟩
    · unfold getCastCompatibleMemRefType
      rw [hcc, if_neg (by simp), if_neg (by simp [hrank]), hsa, hsb]
      show (if aStrides.length ≠ bStrides.length then Option.none
            else some ({ shape := List.zipWith mergeField aT.shape bT.shape
                       , elem := aT.elem
                       , layout := Layout.strided (List.zipWith mergeField aStrides bStrides)
                                                  (mergeField aOffset bOffset) } : MemRefTy)) = _
      rw [if_neg (by simp [hlen])]
    · simp only [List.length_zipWith]
      unfold MemRefTy.rank at hrank ⊢
      omega
    · intro i ha hb hr
      simp only [List.getElem_zipWith]
      rfl
    · refine ⟨List.zipWith mergeField aStrides bStrides,
        mergeField aOffset bOffset, rfl, ?_, ?_, rfl⟩
      · simp only [List.length_zipWith]
        omega
      · intro i ha hb hr
        simp only [List.getElem_zipWith]
        rfl

/-- Witness for C4: two same-rank strided descriptors that disagree on a
static extent and a static stride get merged, with the disagreeing fields
dynamic and the agreeing ones kept. -/
theorem getCastCompatibleMemRefType_spec_witness :
    ∃ res, getCastCompatibleMemRefType
        ⟨[some 4, some 2], 0, Layout.strided [some 2, some 1] (some 0)⟩
        ⟨[some 4, some 8], 0, Layout.strided [some 8, some 1] (some 0)⟩ = some res ∧
      res.elem = 0 ∧ res.shape.length = 2 := by
  obtain ⟨res, h1, h2, h3, _⟩ :=
    (getCastCompatibleMemRefType_spec
        ⟨[some 4, some 2], 0, Layout.strided [some 2, some 1] (some 0)⟩
        ⟨[some 4, some 8], 0, Layout.strided [some 8, some 1] (some 0)⟩).2.2.2
      [some 2, some 1] (some 0) [some 8, some 1] (some 0)
      (by decide) (by decide) rfl rfl (by decide)
  exact ⟨res, h1, h2, h3⟩

lemma alloca_scope_of_mem {strat : Strategy} {cfg : OpCfg} {slot : Option IfRef}
    {sc : Option Anc}
    (h : Event.alloca sc ∈ (splitFullAndPartialTransfer strat cfg slot).created) :
    sc = getAutomaticAllocationScope cfg.ancestors := by
  unfold splitFullAndPartialTransfer at h
  repeat' split at h
  all_goals
    first
      | exact h
      | exact h.symm
      | simp [condEvents, List.mem_map] at h
  all_goals exact h

/-- Claim C8: the allocation-scope walk records the most recently seen
ancestor tagged as an automatic-allocation scope over the prefix of
loop-like ancestors plus the first non-loop ancestor; a transfer nested in
two loops inside a tagged non-loop (function-like) scope resolves to that
outer scope regardless of anything beyond it; absence of any tagged
ancestor in the walked prefix is exactly the assertion-tripping `none`
outcome; and every scratch-buffer allocation the orchestrator creates is
placed in the scope this walk returns. -/
theorem getAutomaticAllocationScope_spec : ∀ ancestors : List Anc,
    (getAutomaticAllocationScope ancestors = lastAllocScope (walkedAncestors ancestors)) ∧
    (getAutomaticAllocationScope ancestors = none ↔
      ∀ a ∈ walkedAncestors ancestors, a.allocScope = false) ∧
    (∀ l1 l2 f : Anc, ∀ rest : List Anc,
      l1.isLoopLike = true → l2.isLoopLike = true →
      f.isLoopLike = false → f.allocScope = true →
      getAutomaticAllocationScope (l1 :: l2 :: f :: rest) = some f) ∧
    (∀ (strat : Strategy) (cfg : OpCfg) (slot : Option IfRef) (sc : Option Anc),
      Event.alloca sc ∈ (splitFullAndPartialTransfer strat cfg slot).created →
      sc = getAutomaticAllocationScope cfg.ancestors) := by
  intro ancestors
  refine ⟨getAutomaticAllocationScope_eq ancestors, ?_, ?_, ?_⟩
  · rw [getAutomaticAllocationScope_eq]
    exact lastAllocScope_eq_none_iff _
  · intro l1 l2 f rest hl1 hl2 hf hfa
    unfold getAutomaticAllocationScope gaasWalk
    rw [hl1, if_pos rfl]
    unfold gaasWalk
    rw [hl2, if_pos rfl]
    unfold gaasWalk
    rw [hf, hfa]
    simp
  · intro strat cfg slot sc h
    exact alloca_scope_of_mem h

/-- Witness for C8: two tagged loops inside a tagged non-loop scope — the
buffer scope is the outermost, non-loop one. -/
theorem getAutomaticAllocationScope_spec_witness :
    getAutomaticAllocationScope
      [⟨AncKind.scfFor, true, 1⟩, ⟨AncKind.affineFor, true, 2⟩,
       ⟨AncKind.otherOp, true, 3⟩] = some ⟨AncKind.otherOp, true, 3⟩ :=
  (getAutomaticAllocationScope_spec []).2.2.1
    ⟨AncKind.scfFor, true, 1⟩ ⟨AncKind.affineFor, true, 2⟩
    ⟨AncKind.otherOp, true, 3⟩ [] (by decide) (by decide) (by decide) (by decide)

/-! ## Concrete configurations used by counterexamples and witnesses -/

/-- A participating dimension with a dynamic index (so its check cannot
fold away): vector extent 4 over a static region extent 8. -/
def dimDyn : Dim := ⟨false, 0, false, 4, 8, true⟩

/-- A function-like (non-loop) ancestor tagged as an allocation scope. -/
def funcAnc : Anc := ⟨AncKind.otherOp, true, 0⟩

/-- A 1-D contiguous static source memref of extent 8. -/
def src1d : MemRefTy := ⟨[some 8], 0, Layout.strided [some 1] (some 0)⟩

/-- A 2-D contiguous static source memref; its rank differs from the rank
of the scratch buffer of a 1-D transfer, so no cast-compatible unified
type exists. -/
def src2d : MemRefTy := ⟨[some 8, some 8], 0, Layout.strided [some 8, some 1] (some 0)⟩

/-- A rank-1 transfer read out of the 2-D memref (minor-identity map on
the innermost dimension): passes the precondition, emits one bounds
check, allocates, then fails type unification. -/
def cfgRank2 : OpCfg := ⟨OpKind.read, [dimDyn], true, false, false, src2d, 0, [funcAnc]⟩

/-- A splittable 1-D transfer read. -/
def cfgRead : OpCfg := ⟨OpKind.read, [dimDyn], true, false, false, src1d, 0, [funcAnc]⟩

/-- A splittable 1-D transfer write. -/
def cfgWrite : OpCfg := ⟨OpKind.write, [dimDyn], true, false, false, src1d, 0, [funcAnc]⟩

/-- The 1-D read, but carrying an explicit partial mask: rejected. -/
def cfgMasked : OpCfg := ⟨OpKind.read, [dimDyn], true, false, true, src1d, 0, [funcAnc]⟩

/-! ## Claims C9, C7, C10: strategy handling and the out-parameter -/

/-- Claim C9: with strategy `None`, `splitFullAndPartialTransfer` fails
immediately on every operation — whatever its rank, map, mask or flags —
creating nothing, touching neither the op nor the out-parameter. -/
theorem split_none_noop : ∀ (cfg : OpCfg) (slot : Option IfRef),
    splitFullAndPartialTransfer Strategy.none cfg slot =
      ⟨false, [], some cfg, slot⟩ := by
  intro cfg slot
  unfold splitFullAndPartialTransfer
  rw [if_pos rfl]

/-- Claim C7: with strategy `ForceInBounds`, the transform overwrites the
in-bounds flag array to all-true and reports success for every transfer
op, creating no operation, erasing nothing, leaving the out-parameter and
every other field of the op unchanged. -/
theorem split_forceInBounds_spec : ∀ (cfg : OpCfg) (slot : Option IfRef),
    splitFullAndPartialTransfer Strategy.forceInBounds cfg slot =
      ⟨true, [], some (setAllInBounds cfg), slot⟩ ∧
    ((setAllInBounds cfg).dims.all fun d => d.inBounds) = true ∧
    (setAllInBounds cfg).dims.length = cfg.dims.length ∧
    (setAllInBounds cfg).kind = cfg.kind ∧
    (setAllInBounds cfg).srcType = cfg.srcType ∧
    (setAllInBounds cfg).hasMask = cfg.hasMask ∧
    (setAllInBounds cfg).minorIdentity = cfg.minorIdentity ∧
    (setAllInBounds cfg).parentIsIf = cfg.parentIsIf ∧
    (setAllInBounds cfg).vecElem = cfg.vecElem ∧
    (setAllInBounds cfg).ancestors = cfg.ancestors ∧
    ((setAllInBounds cfg).dims.map fun d => d.idx) = (cfg.dims.map fun d => d.idx) ∧
    ((setAllInBounds cfg).dims.map fun d => d.vecSize) = (cfg.dims.map fun d => d.vecSize) ∧
    ((setAllInBounds cfg).dims.map fun d => d.sz) = (cfg.dims.map fun d => d.sz) := by
  intro cfg slot
  refine ⟨?_, ?_, ?_, rfl, rfl, rfl, rfl, rfl, rfl, rfl, ?_, ?_, ?_⟩
  · unfold splitFullAndPartialTransfer
    rw [if_neg (by decide), if_pos rfl]
  · simp [setAllInBounds, List.all_map, Function.comp]
  · simp [setAllInBounds]
  · simp [setAllInBounds, List.map_map, Function.comp]
  · simp [setAllInBounds, List.map_map, Function.comp]
  · simp [setAllInBounds, List.map_map, Function.comp]

/-- Claim C10: the `ifOp` out-parameter is written only by a successful
split of a read under the two splitting strategies — and then it receives
the newly created conditional; a successful write split and every failure
path leave it untouched. -/
theorem split_ifOp_out_spec : ∀ (strat : Strategy) (cfg : OpCfg) (slot : Option IfRef),
    ((splitFullAndPartialTransfer strat cfg slot).ok = false →
      (splitFullAndPartialTransfer strat cfg slot).slot = slot) ∧
    ((splitFullAndPartialTransfer strat cfg slot).ok = true → cfg.kind = OpKind.write →
      (splitFullAndPartialTransfer strat cfg slot).slot = slot) ∧
    ((splitFullAndPartialTransfer strat cfg slot).ok = true → cfg.kind = OpKind.read →
      (strat = Strategy.linalgCopy ∨ strat = Strategy.vectorTransfer) →
      ∃ k, (splitFullAndPartialTransfer strat cfg slot).slot = some (IfRef.readIf k) ∧
        Event.readIf k ∈ (splitFullAndPartialTransfer strat cfg slot).created) := by
  intro strat cfg slot
  refine ⟨?_, ?_, ?_⟩
  · intro hok
    unfold splitFullAndPartialTransfer at hok ⊢
    repeat' split
    all_goals first
      | rfl
      | (repeat' split at hok) <;> simp_all
  · intro hok hw
    unfold splitFullAndPartialTransfer at hok ⊢
    repeat' split
    all_goals first
      | rfl
      | simp_all
  · intro hok hr _hstrat
    unfold splitFullAndPartialTransfer at hok ⊢
    repeat' split
    all_goals simp_all

/-- Witness for C10: on the splittable concrete read, the out-parameter
receives the conditional that was indeed created. -/
theorem split_ifOp_out_witness :
    ∃ k, (splitFullAndPartialTransfer Strategy.linalgCopy cfgRead Option.none).slot
          = some (IfRef.readIf k) ∧
      Event.readIf k ∈ (splitFullAndPartialTransfer Strategy.linalgCopy cfgRead Option.none).created :=
  (split_ifOp_out_spec Strategy.linalgCopy cfgRead Option.none).2.2
    (by decide) rfl (Or.inl rfl)

/-! ## Claim C3: frame behaviour of the failure paths -/

/-- Counterexample to C3 as stated: on a transfer whose source rank and
vector rank differ, the pattern fails (no cast-compatible unified type),
yet the bounds-condition comparison and the scratch-buffer allocation have
already been created — the input IR is not left unchanged. -/
theorem split_failure_frame_cex :
    (matchAndRewrite Strategy.linalgCopy true cfgRank2 Option.none).ok = false ∧
    (matchAndRewrite Strategy.linalgCopy true cfgRank2 Option.none).created =
      [Event.condCheck dimDyn, Event.alloca (some funcAnc)] := by decide

/-- Claim C3 (amended): whenever the split — invoked through the pattern
wrapper, covering the precondition failures (zero rank, non-minor-identity
map, no out-of-bounds dimension, parent conditional), the filter, the
strategy-`None`/kind/mask rejections and the folded-away bounds condition
— returns failure, the operation itself and the out-parameter are
untouched and no operation has been created, with one exception: the
failure for lack of a cast-compatible unified type occurs only after the
bounds-condition arithmetic and the scratch-buffer allocation have been
created, and leaves them in place. -/
theorem split_failure_frame_spec :
    ∀ (strat : Strategy) (filterOk : Bool) (cfg : OpCfg) (slot : Option IfRef),
    (matchAndRewrite strat filterOk cfg slot).ok = false →
    (matchAndRewrite strat filterOk cfg slot).finalOp = some cfg ∧
    (matchAndRewrite strat filterOk cfg slot).slot = slot ∧
    ((matchAndRewrite strat filterOk cfg slot).created = [] ∨
      (getCastCompatibleMemRefType cfg.srcType (allocMemRefType cfg) = Option.none ∧
       (matchAndRewrite strat filterOk cfg slot).created =
         condEvents cfg.dims
           ++ [Event.alloca (getAutomaticAllocationScope cfg.ancestors)])) := by
  intro strat filterOk cfg slot hok
  unfold matchAndRewrite at hok ⊢
  by_cases hpre : (!(splitFullAndPartialTransferPrecondition cfg) || !filterOk) = true
  · rw [if_pos hpre]
    exact ⟨rfl, rfl, Or.inl rfl⟩
  · rw [if_neg hpre] at hok ⊢
    unfold splitFullAndPartialTransfer at hok ⊢
    by_cases h1 : strat = Strategy.none
    · rw [if_pos h1]
      exact ⟨rfl, rfl, Or.inl rfl⟩
    · rw [if_neg h1] at hok ⊢
      by_cases h2 : strat = Strategy.forceInBounds
      · rw [if_pos h2] at hok
        simp at hok
      · rw [if_neg h2] at hok ⊢
        by_cases h3 :
            (!(decide (cfg.kind = OpKind.read) || decide (cfg.kind = OpKind.write))) = true
        · rw [if_pos h3]
          exact ⟨rfl, rfl, Or.inl rfl⟩
        · rw [if_neg h3] at hok ⊢
          by_cases h4 : cfg.hasMask = true
          · rw [if_pos h4]
            exact ⟨rfl, rfl, Or.inl rfl⟩
          · rw [if_neg h4] at hok ⊢
            cases hc : createInBoundsCond cfg.dims with
            | none =>
                exact ⟨rfl, rfl, Or.inl (condEvents_eq_nil_of_cond_none hc)⟩
            | some cs =>
                rw [hc] at hok
                cases hcompat :
                    getCastCompatibleMemRefType cfg.srcType (allocMemRefType cfg) with
                | none =>
                    exact ⟨rfl, rfl, Or.inr ⟨rfl, rfl⟩⟩
                | some compatTy =>
                    rw [hcompat] at hok
                    by_cases hk : cfg.kind = OpKind.read <;> simp [hk] at hok

/-- Witness for C3 (amended): the masked concrete read is rejected with
the IR fully untouched. -/
theorem split_failure_frame_witness :
    (matchAndRewrite Strategy.linalgCopy true cfgMasked Option.none).finalOp = some cfgMasked ∧
    (matchAndRewrite Strategy.linalgCopy true cfgMasked Option.none).slot = Option.none ∧
    ((matchAndRewrite Strategy.linalgCopy true cfgMasked Option.none).created = [] ∨
      (getCastCompatibleMemRefType cfgMasked.srcType (allocMemRefType cfgMasked) = Option.none ∧
       (matchAndRewrite Strategy.linalgCopy true cfgMasked Option.none).created =
         condEvents cfgMasked.dims
           ++ [Event.alloca (getAutomaticAllocationScope cfgMasked.ancestors)])) :=
  split_failure_frame_spec Strategy.linalgCopy true cfgMasked Option.none (by decide)

/-! ## Claim C6: the write path -/

lemma writeCloneCount_append (l1 l2 : List Event) :
    writeCloneCount (l1 ++ l2) = writeCloneCount l1 + writeCloneCount l2 := by
  unfold writeCloneCount
  rw [List.map_append, List.sum_append]

lemma writeCloneCount_condEvents (dims : List Dim) :
    writeCloneCount (condEvents dims) = 0 := by
  unfold writeCloneCount condEvents
  rw [List.map_map]
  apply List.sum_eq_zero
  intro x hx
  obtain ⟨d, _, hd⟩ := List.mem_map.mp hx
  subst hd
  rfl

/-- Counterexample to C6 as stated: on the splittable concrete write under
the bulk-copy strategy the split succeeds, but the original write is
cloned exactly once, not twice. -/
theorem split_write_clone_cex :
    (splitFullAndPartialTransfer Strategy.linalgCopy cfgWrite Option.none).ok = true ∧
    writeCloneCount
      (splitFullAndPartialTransfer Strategy.linalgCopy cfgWrite Option.none).created = 1 ∧
    writeCloneCount
      (splitFullAndPartialTransfer Strategy.linalgCopy cfgWrite Option.none).created ≠ 2 := by
  decide

/-- Claim C6 (amended): every successful split of a write emits, after the
location-choosing conditional and the guaranteed in-bounds clone, a second
independent conditional guarded by `inBoundsCond xor true` — the logical
negation of the bounds condition — whose body is only the slow-path
cleanup: the bulk-copy strategy copies between the buffer-based source
subview and the region-based destination subview produced by
`createSubViewIntersection`, and the reissue strategy loads the single
vector out of the buffer and reissues the original write against the
original region and indices with the loaded value substituted; the
original write is erased, after being cloned once for the in-bounds write
plus — under the reissue strategy only — a second time inside the cleanup
conditional. -/
theorem split_write_path_spec : ∀ (strat : Strategy) (cfg : OpCfg) (slot : Option IfRef),
    (strat = Strategy.linalgCopy ∨ strat = Strategy.vectorTransfer) →
    cfg.kind = OpKind.write →
    (splitFullAndPartialTransfer strat cfg slot).ok = true →
    ((splitFullAndPartialTransfer strat cfg slot).created =
       condEvents cfg.dims
         ++ [Event.alloca (getAutomaticAllocationScope cfg.ancestors),
             Event.locWriteIf BoolExpr.inBoundsCondV,
             Event.cloneWrite (List.replicate cfg.transferRank true),
             Event.negCond,
             Event.cleanupIf (BoolExpr.xorE BoolExpr.inBoundsCondV BoolExpr.constTrue)
               (writeCleanupBody strat cfg)]) ∧
    (∀ c : Bool,
      evalBoolExpr c (BoolExpr.xorE BoolExpr.inBoundsCondV BoolExpr.constTrue) = !c) ∧
    (strat = Strategy.linalgCopy →
      writeCleanupBody strat cfg =
        CleanupBody.copyBack (writeSubViews cfg).1 (writeSubViews cfg).2 ∧
      (writeSubViews cfg).1.base = ViewBase.alloc ∧
      (writeSubViews cfg).2.base = ViewBase.source) ∧
    (strat = Strategy.vectorTransfer →
      writeCleanupBody strat cfg =
        CleanupBody.reissueWrite ViewBase.source (cfg.dims.map fun d => d.idx) true) ∧
    (splitFullAndPartialTransfer strat cfg slot).finalOp = Option.none ∧
    (splitFullAndPartialTransfer strat cfg slot).slot = slot ∧
    writeCloneCount (splitFullAndPartialTransfer strat cfg slot).created =
      (if strat = Strategy.vectorTransfer then 2 else 1) := by
  intro strat cfg slot hstrat hw hok
  have h1 : ¬strat = Strategy.none := by
    rcases hstrat with h | h <;> simp [h]
  have h2 : ¬strat = Strategy.forceInBounds := by
    rcases hstrat with h | h <;> simp [h]
  have h3 : (!(decide (cfg.kind = OpKind.read) || decide (cfg.kind = OpKind.write))) ≠ true := by
    simp [hw]
  have hk : ¬cfg.kind = OpKind.read := by
    rw [hw]
    intro hcontra
    cases hcontra
  unfold splitFullAndPartialTransfer at hok ⊢
  rw [if_neg h1, if_neg h2, if_neg h3] at hok ⊢
  by_cases h4 : cfg.hasMask = true
  · rw [if_pos h4] at hok
    simp at hok
  · rw [if_neg h4] at hok ⊢
    cases hc : createInBoundsCond cfg.dims with
    | none =>
        rw [hc] at hok
        simp at hok
    | some cs =>
        rw [hc] at hok
        cases hcompat :
            getCastCompatibleMemRefType cfg.srcType (allocMemRefType cfg) with
        | none =>
            rw [hcompat] at hok
            simp at hok
        | some compatTy =>
            rw [hw]
            refine ⟨?_, by intro c; cases c <;> rfl, ?_, ?_, rfl, rfl, ?_⟩
            · show (condEvents cfg.dims
                    ++ [Event.alloca (getAutomaticAllocationScope cfg.ancestors)])
                  ++ [Event.locWriteIf BoolExpr.inBoundsCondV,
                      Event.cloneWrite (List.replicate cfg.transferRank true),
                      Event.negCond,
                      Event.cleanupIf (BoolExpr.xorE BoolExpr.inBoundsCondV BoolExpr.constTrue)
                        (writeCleanupBody strat cfg)] = _
              rw [List.append_assoc]
              rfl
            · intro hlc
              refine ⟨?_, rfl, rfl⟩
              unfold writeCleanupBody
              rw [if_neg (by simp [hlc])]
            · intro hvt
              unfold writeCleanupBody
              rw [if_pos hvt]
            · show writeCloneCount
                ((condEvents cfg.dims
                    ++ [Event.alloca (getAutomaticAllocationScope cfg.ancestors)])
                  ++ [Event.locWriteIf BoolExpr.inBoundsCondV,
                      Event.cloneWrite (List.replicate cfg.transferRank true),
                      Event.negCond,
                      Event.cleanupIf (BoolExpr.xorE BoolExpr.inBoundsCondV BoolExpr.constTrue)
                        (writeCleanupBody strat cfg)]) = _
              rw [writeCloneCount_append, writeCloneCount_append, writeCloneCount_condEvents]
              unfold writeCleanupBody
              by_cases hvt : strat = Strategy.vectorTransfer
              · rw [if_pos hvt, if_pos hvt]
                rfl
              · rw [if_neg hvt, if_neg hvt]
                rfl

/-- Witness for C6 (amended): on the splittable concrete write under the
reissue strategy, the cleanup body reissues the original write and the
clone count is two. -/
theorem split_write_path_witness :
    writeCleanupBody Strategy.vectorTransfer cfgWrite =
      CleanupBody.reissueWrite ViewBase.source (cfgWrite.dims.map fun d => d.idx) true ∧
    writeCloneCount
      (splitFullAndPartialTransfer Strategy.vectorTransfer cfgWrite Option.none).created = 2 := by
  obtain ⟨_, _, _, h4, _, _, h7⟩ :=
    split_write_path_spec Strategy.vectorTransfer cfgWrite Option.none
      (Or.inr rfl) rfl (by decide)
  exact ⟨h4 rfl, by simpa using h7⟩

/-! ## Claims C5 and C2: the subview orientation bug on the write path -/

/-- Claim C5 evaluated on the spec's own example (region extent 10,
scratch buffer extent 4, index 8): the overlap size is
`min(10 - 8, 4) = 2` and the read orientation matches the claim, but for
a write the code swaps only the subview bases, not the offsets: the
buffer-side view carries offset 8 and the region-side view offset 0,
where the claim (and the 4.3 intent) put the original index on the region
side and zero on the buffer side. -/
theorem createSubViewIntersection_write_offsets :
    createSubViewIntersection false [] [8] [10] [4] =
      (⟨ViewBase.source, [8], [2], [1]⟩, ⟨ViewBase.alloc, [0], [2], [1]⟩) ∧
    createSubViewIntersection true [] [8] [10] [4] =
      (⟨ViewBase.alloc, [8], [2], [1]⟩, ⟨ViewBase.source, [0], [2], [1]⟩) := by
  decide

/-- Concrete scenario exhibiting the write-path divergence: a 1-D region
of extent 4 holding zeros, a transfer write of the vector `[10, 20]`
(lane `q` holds `10 + 10*q`) at index 3, scratch-buffer residue 7. -/
def exMem : Int → Int := fun _ => 0

def exBinit : Int → Int := fun _ => 7

def exVec : Int → Int := fun q => 10 + 10 * q

/-- Claim C2 evaluated at the failing input: under the bulk-copy strategy
the split write's final memory differs from the masked write's.  The
masked write must store lane 0 (value 10) at address 3 and leave address 0
alone; the emitted cleanup instead copies scratch-buffer cell 3 — beyond
the two-element buffer, i.e. its residue — into address 0, and stores
nothing at address 3.  The reissue-strategy write and the bulk-copy read
agree with the masked semantics (separate lemmas above); the bulk-copy
write does not. -/
theorem splitWriteLinalgCopy_diverges :
    splitWriteLinalgCopy1 exMem exBinit 4 3 2 false exVec 3 = 0 ∧
    transferWriteMasked1 exMem 4 3 2 exVec 3 = 10 ∧
    splitWriteLinalgCopy1 exMem exBinit 4 3 2 false exVec 0 = 7 ∧
    transferWriteMasked1 exMem 4 3 2 exVec 0 = 0 ∧
    splitWriteVectorTransfer1 exMem exBinit 4 3 2 false exVec 3 = 10 ∧
    splitWriteVectorTransfer1 exMem exBinit 4 3 2 false exVec 0 = 0 := by
  decide

end VectorTransferSplit
